import Mathlib

/-
Verification of the crawl4ai-mcp server (src/crawl_mcp.py) against its
natural-language specification.

The Python source is shallowly embedded: Python strings are lists of
characters (`Str := List Char`; for `sanitize_text`, which must handle lone
surrogate code points that Lean's `Char` cannot represent, lists of natural
code points are used instead).  Regex substitutions are embedded as
left-to-right scanners that reproduce the exact matching behaviour of the
concrete patterns used in the source.  Scanners that consume a variable
number of characters per step carry a fuel argument initialised to the
length of the input; every step consumes at least one character, so the
fuel (an upper bound on the number of steps) is never exhausted.
-/

namespace CrawlSpec

/-- Characters of a Python `str`, as a list of `Char`. -/
abbrev Str := List Char

/-- View a Lean string literal as its character list. -/
def str (s : String) : Str := s.data

/-- The backquote character (code point 96). -/
def backquote : Char := Char.ofNat 96

/-- The literal triple-backquote fence delimiter of the code-block regex. -/
def ticks : Str := [backquote, backquote, backquote]

/-- Number of positions at which `pat` occurs as a contiguous substring of
the second argument (all patterns used below are nonempty). -/
def countSub (pat : Str) : Str → Nat
  | [] => 0
  | c :: t => countSub pat t + (if pat.isPrefixOf (c :: t) then 1 else 0)

/-- Python's `pat in s` substring test (for nonempty `pat`). -/
def hasSub (pat s : Str) : Bool := countSub pat s != 0

/-- Index of the first occurrence of `pat` in the second argument, if any. -/
def subIndex (pat : Str) : Str → Option Nat
  | [] => if pat = [] then some 0 else none
  | c :: t =>
    if pat.isPrefixOf (c :: t) then some 0
    else (subIndex pat t).map (fun i => i + 1)

/-- The placeholder `__CODE_BLOCK_{i}__` used by `remove_links_from_markdown`. -/
def placeholder (i : Nat) : Str := str "__CODE_BLOCK_" ++ (Nat.repr i).data ++ str "__"

/-- Scanner for `re.sub(r'```[\s\S]*?```', save_code_block, text)` of
crawl_mcp.py line 132: each fenced block (from a `ticks` occurrence to the
next following `ticks` occurrence, non-greedy) is cut out, recorded, and
replaced by `placeholder k` for the running index `k`.  A `ticks`
occurrence with no later closing occurrence matches nothing (and then no
later occurrence can match either, since any closing fence for a later
opening would already close the earlier one). -/
def extractFencesGo : Nat → Str → Nat → Str × List Str
  | 0, s, _ => (s, [])
  | fuel + 1, s, k =>
    match subIndex ticks s with
    | none => (s, [])
    | some i =>
      match subIndex ticks (s.drop (i + 3)) with
      | none => (s, [])
      | some j =>
        let block := (s.drop i).take (j + 6)
        let tail := s.drop (i + j + 6)
        let res := extractFencesGo fuel tail (k + 1)
        (s.take i ++ placeholder k ++ res.1, block :: res.2)

/-- Code-block extraction pass (crawl_mcp.py lines 123-132). -/
def extractFences (s : Str) : Str × List Str := extractFencesGo s.length s 0

/-- Split at the first occurrence of `ch`: `some (before, after)` with the
occurrence itself dropped.  Models the greedy `[^X]*X` idiom of the link
and image regexes, whose character classes exclude the closing character. -/
def takeUntil (ch : Char) : Str → Option (Str × Str)
  | [] => none
  | c :: t =>
    if c = ch then some ([], t)
    else (takeUntil ch t).map (fun p => (c :: p.1, p.2))

/-- Attempt to match `([^\]]+)\]\([^)]+\)` (the part of the link regex after
the opening `[`).  Returns the link text and the remainder after the
closing parenthesis. -/
def linkMatch (t : Str) : Option (Str × Str) :=
  match takeUntil ']' t with
  | none => none
  | some (txt, t2) =>
    if txt = [] then none
    else
      match t2 with
      | '(' :: t3 =>
        match takeUntil ')' t3 with
        | none => none
        | some (url, t4) => if url = [] then none else some (txt, t4)
      | _ => none

/-- Scanner for `re.sub(r'\[([^\]]+)\]\([^)]+\)', r'\1', text)`
(crawl_mcp.py line 135): every inline link is replaced by its text. -/
def linkSubGo : Nat → Str → Str
  | 0, s => s
  | _ + 1, [] => []
  | fuel + 1, c :: t =>
    if c = '[' then
      match linkMatch t with
      | some (txt, rest) => txt ++ linkSubGo fuel rest
      | none => c :: linkSubGo fuel t
    else c :: linkSubGo fuel t

def linkSub (s : Str) : Str := linkSubGo s.length s

/-- Attempt to match `\[[^\]]*\]\([^)]+\)` (the part of the image regex
after the leading `!`); the alt text may be empty.  Returns the remainder. -/
def imageMatch (t1 : Str) : Option Str :=
  match takeUntil ']' t1 with
  | none => none
  | some (_, t2) =>
    match t2 with
    | '(' :: t3 =>
      match takeUntil ')' t3 with
      | none => none
      | some (url, t4) => if url = [] then none else some t4
    | _ => none

/-- Scanner for `re.sub(r'!\[[^\]]*\]\([^)]+\)', '', text)`
(crawl_mcp.py line 138): every image is removed entirely. -/
def imageSubGo : Nat → Str → Str
  | 0, s => s
  | _ + 1, [] => []
  | fuel + 1, c :: t =>
    if c = '!' then
      match t with
      | '[' :: t1 =>
        match imageMatch t1 with
        | some rest => imageSubGo fuel rest
        | none => c :: imageSubGo fuel t
      | _ => c :: imageSubGo fuel t
    else c :: imageSubGo fuel t

def imageSub (s : Str) : Str := imageSubGo s.length s

/-- Python's `\s` character class for `str` patterns (Unicode whitespace). -/
def isPySpace (c : Char) : Bool :=
  let n := c.toNat
  n = 0x20 || (0x9 ≤ n && n ≤ 0xD) || (0x1C ≤ n && n ≤ 0x1F) || n = 0x85 || n = 0xA0 ||
  n = 0x1680 || (0x2000 ≤ n && n ≤ 0x200A) || n = 0x2028 || n = 0x2029 ||
  n = 0x202F || n = 0x205F || n = 0x3000

/-- Index of the last newline in a list, if any. -/
def lastNlIdx : Str → Option Nat
  | [] => none
  | c :: t =>
    match lastNlIdx t with
    | some k => some (k + 1)
    | none => if c = '\n' then some 0 else none

/-- After a matched `\n`, the greedy-with-backtracking `\s*\n` matches up to
the last newline inside the maximal whitespace run; returns the remainder
after that newline, or `none` when the run contains no newline. -/
def blankRun (t : Str) : Option Str :=
  match lastNlIdx (t.takeWhile isPySpace) with
  | some k => some (t.drop (k + 1))
  | none => none

/-- Scanner for `re.sub(r'\n\s*\n', '\n\n', text)` (crawl_mcp.py line 141). -/
def collapseBlankGo : Nat → Str → Str
  | 0, s => s
  | _ + 1, [] => []
  | fuel + 1, c :: t =>
    if c = '\n' then
      match blankRun t with
      | some rest => '\n' :: '\n' :: collapseBlankGo fuel rest
      | none => c :: collapseBlankGo fuel t
    else c :: collapseBlankGo fuel t

def collapseBlank (s : Str) : Str := collapseBlankGo s.length s

/-- Scanner for `re.sub(r' {2,}', ' ', text)` (crawl_mcp.py line 144). -/
def collapseSpacesGo : Nat → Str → Str
  | 0, s => s
  | _ + 1, [] => []
  | fuel + 1, c :: t =>
    if c = ' ' then
      match t with
      | ' ' :: _ => ' ' :: collapseSpacesGo fuel (t.dropWhile (fun d => d = ' '))
      | _ => c :: collapseSpacesGo fuel t
    else c :: collapseSpacesGo fuel t

def collapseSpaces (s : Str) : Str := collapseSpacesGo s.length s

/-- Python `s.replace(pat, rep)`: all non-overlapping occurrences, scanned
left to right.  (The empty-pattern guard is never hit: every pattern used
in the source — the placeholders and `"."` — is nonempty.) -/
def replaceAllGo (pat rep : Str) : Nat → Str → Str
  | 0, s => s
  | _ + 1, [] => []
  | fuel + 1, c :: t =>
    if pat.isPrefixOf (c :: t) && !pat.isEmpty then
      rep ++ replaceAllGo pat rep fuel (t.drop (pat.length - 1))
    else c :: replaceAllGo pat rep fuel t

def replaceAll (pat rep s : Str) : Str := replaceAllGo pat rep s.length s

/-- The restore loop of crawl_mcp.py lines 148-149: for each saved block in
order, replace every occurrence of its placeholder in the current result. -/
def restoreBlocks : List Str → Nat → Str → Str
  | [], _, s => s
  | b :: bs, k, s => restoreBlocks bs (k + 1) (replaceAll (placeholder k) b s)

/-- crawl_mcp.py lines 112-151, `remove_links_from_markdown`. -/
def remove_links_from_markdown (markdown_text : Str) : Str :=
  let p := extractFences markdown_text
  let s1 := linkSub p.1
  let s2 := imageSub s1
  let s3 := collapseBlank s2
  let s4 := collapseSpaces s3
  restoreBlocks p.2 0 s4

/-- Concrete input for claim C2: an image whose URL position holds a fenced
code block, `![](` + three backquotes + `x` + three backquotes + `)`. -/
def c2input : Str := str "![](" ++ ticks ++ str "x" ++ ticks ++ str ")"

/-- Claim C1 (code bug): on the input `![alt](http://x.com/img.png)` the
source does NOT return the empty string.  The link substitution (line 135)
runs before the image substitution (line 138) and consumes the
`[alt](url)` part of the image, leaving `!alt`: the alt text survives, so
images of the form `![alt](url)` with nonempty alt text are not removed
entirely, contradicting the code's own comment ("Completely remove images
in ![text](url) format") and the specification. -/
theorem c1_image_not_removed :
    remove_links_from_markdown (str "![alt](http://x.com/img.png)") = str "!alt" := by
  decide

/-- Claim C2 (code bug): the contents of a fenced code block are not always
preserved.  On `c2input` the fence pass extracts the code block (second
conjunct), but its placeholder then sits in the URL position of an image
pattern `![](...)`, so the image substitution deletes the placeholder and
the restore loop finds nothing to replace: the whole output is empty and
the block's content is lost (first conjunct). -/
theorem c2_code_block_destroyed :
    remove_links_from_markdown c2input = [] ∧
    (extractFences c2input).2 = [ticks ++ str "x" ++ ticks] := by
  constructor
  · decide
  · decide

/-! ## Text sanitizer (crawl_mcp.py lines 26-84, `sanitize_text`)

Python strings are sequences of arbitrary code points including lone
surrogates, which Lean's `Char` excludes, so this component is embedded
over lists of natural code points.  `sys.getdefaultencoding()` is always
`"utf-8"` in Python 3, and `str.encode("utf-8")` raises `UnicodeEncodeError`
exactly when the string contains a code point in the surrogate range. -/

/-- A code point in the surrogate range D800-DFFF. -/
def isSurrogate (c : Nat) : Bool := 0xD800 ≤ c && c ≤ 0xDFFF

/-- Whether `text.encode(sys.getdefaultencoding())` succeeds (line 57). -/
def canEncodeUtf8 (s : List Nat) : Bool := s.all (fun c => !isSurrogate c)

/-- The ordered replacement table of crawl_mcp.py lines 61-75, with each
entry's replacement given as ASCII code points:
arrows to `->`, `<-`, `^`, `v`; bullet to `*`; en and em dash to `-` and
`--`; curly single quotes to code 39; curly double quotes to code 34;
ellipsis to `...`; no-break space to a plain space. -/
def replacements : List (Nat × List Nat) :=
  [(0x2192, [0x2D, 0x3E]), (0x2190, [0x3C, 0x2D]), (0x2191, [0x5E]),
   (0x2193, [0x76]), (0x2022, [0x2A]), (0x2013, [0x2D]), (0x2014, [0x2D, 0x2D]),
   (0x2018, [0x27]), (0x2019, [0x27]), (0x201C, [0x22]), (0x201D, [0x22]),
   (0x2026, [0x2E, 0x2E, 0x2E]), (0x00A0, [0x20])]

/-- `text.replace(char, replacement)` for a single-code-point pattern. -/
def replaceChar (c : Nat) (rep : List Nat) : List Nat → List Nat
  | [] => []
  | x :: t => if x = c then rep ++ replaceChar c rep t else x :: replaceChar c rep t

/-- The loop of lines 78-79 applying the table entries in order. -/
def applyReplacements (s : List Nat) : List Nat :=
  replacements.foldl (fun acc p => replaceChar p.1 p.2 acc) s

/-- A seven-bit code point (the class `[\x00-\x7F]`). -/
def isAsciiCp (c : Nat) : Bool := c ≤ 0x7F

/-- Scanner for `re.sub(r"[^\x00-\x7F]+", " ", text)` (line 82): each
maximal run of non-ASCII code points becomes a single space. -/
def stripNonAsciiGo : Nat → List Nat → List Nat
  | 0, s => s
  | _ + 1, [] => []
  | fuel + 1, x :: t =>
    if isAsciiCp x then x :: stripNonAsciiGo fuel t
    else 0x20 :: stripNonAsciiGo fuel (t.dropWhile (fun c => !isAsciiCp c))

def stripNonAscii (s : List Nat) : List Nat := stripNonAsciiGo s.length s

/-- A Python value reaching `sanitize_text`: `None`, a string, or any other
value carrying the string `str(x)` produces for it. -/
inductive PyVal where
  | none
  | str (s : List Nat)
  | other (stringified : List Nat)

/-- The string `sanitize_text` works on after the `None` and
`isinstance(text, str)` checks of lines 50-53. -/
def pyToStr : PyVal → List Nat
  | .none => []
  | .str s => s
  | .other r => r

/-- crawl_mcp.py lines 26-84, `sanitize_text`. -/
def sanitize_text (v : PyVal) : List Nat :=
  match v with
  | .none => []
  | .str s => if canEncodeUtf8 s then s else stripNonAscii (applyReplacements s)
  | .other r => if canEncodeUtf8 r then r else stripNonAscii (applyReplacements r)

theorem length_dropWhile_le' {p : Nat → Bool} (l : List Nat) :
    (l.dropWhile p).length ≤ l.length := by
  induction l with
  | nil => simp [List.dropWhile]
  | cons x t ih =>
    by_cases h : p x
    · simp only [List.dropWhile, h]
      exact Nat.le_succ_of_le ih
    · simp only [List.dropWhile, h]
      simp

theorem stripNonAsciiGo_ascii (fuel : Nat) :
    ∀ l : List Nat, l.length ≤ fuel → ∀ c ∈ stripNonAsciiGo fuel l, isAsciiCp c = true := by
  induction fuel with
  | zero =>
    intro l hl c hc
    have : l = [] := List.eq_nil_of_length_eq_zero (Nat.le_zero.mp hl)
    subst this
    simp [stripNonAsciiGo] at hc
  | succ fuel ih =>
    intro l hl c hc
    cases l with
    | nil => simp [stripNonAsciiGo] at hc
    | cons x t =>
      simp only [stripNonAsciiGo] at hc
      by_cases hx : isAsciiCp x
      · rw [if_pos hx] at hc
        rcases List.mem_cons.mp hc with rfl | hc
        · exact hx
        · exact ih t (Nat.le_of_succ_le_succ hl) c hc
      · rw [if_neg hx] at hc
        rcases List.mem_cons.mp hc with rfl | hc
        · decide
        · refine ih _ ?_ c hc
          calc (t.dropWhile fun c => !isAsciiCp c).length ≤ t.length :=
                 length_dropWhile_le' t
            _ ≤ fuel := Nat.le_of_succ_le_succ hl

theorem stripNonAscii_ascii (s : List Nat) :
    ∀ c ∈ stripNonAscii s, isAsciiCp c = true :=
  stripNonAsciiGo_ascii s.length s (Nat.le_refl _)

theorem canEncodeUtf8_of_ascii (s : List Nat) (h : ∀ c ∈ s, isAsciiCp c = true) :
    canEncodeUtf8 s = true := by
  simp only [canEncodeUtf8, List.all_eq_true]
  intro c hc
  have := h c hc
  simp only [isAsciiCp, decide_eq_true_eq] at this
  simp only [isSurrogate, Bool.not_eq_true', Bool.and_eq_false_iff]
  left
  simp only [decide_eq_false_iff_not, not_le]
  omega

/-- Claim C8: `sanitize_text` is idempotent.  For every input value
(`None`, string, or non-string), re-sanitizing the sanitized string
returns it unchanged: if the first pass took the encodable branch it was
the identity, and otherwise its output is pure ASCII, which the second
pass's encoding test accepts unchanged. -/
theorem c8_sanitize_idempotent (v : PyVal) :
    sanitize_text (PyVal.str (sanitize_text v)) = sanitize_text v := by
  have core : ∀ s : List Nat,
      sanitize_text (PyVal.str (if canEncodeUtf8 s then s
        else stripNonAscii (applyReplacements s))) =
      (if canEncodeUtf8 s then s else stripNonAscii (applyReplacements s)) := by
    intro s
    by_cases h : canEncodeUtf8 s
    · simp [sanitize_text, h]
    · rw [if_neg h]
      have hascii := stripNonAscii_ascii (applyReplacements s)
      have henc := canEncodeUtf8_of_ascii _ hascii
      simp [sanitize_text, henc]
  match v with
  | .none => simp [sanitize_text, canEncodeUtf8]
  | .str s => exact core s
  | .other r => exact core r

/-- Claim C10: whenever the input string survives the UTF-8 encoding test
(no lone surrogate code points), `sanitize_text` returns it unchanged; the
substitution-and-strip branch of lines 58-82 runs only for strings that
fail the encoding test. -/
theorem c10_encodable_unchanged (s : List Nat) (h : canEncodeUtf8 s = true) :
    sanitize_text (PyVal.str s) = s := by
  simp [sanitize_text, h]

/-- Witness for C10 at a concrete input: the right-arrow code point 0x2192
is in the substitution table, yet a string consisting of it passes
through `sanitize_text` unmodified, because it is UTF-8 encodable. -/
theorem c10_encodable_unchanged_witness :
    canEncodeUtf8 [0x2192] = true ∧ sanitize_text (PyVal.str [0x2192]) = [0x2192] :=
  ⟨by decide, c10_encodable_unchanged [0x2192] (by decide)⟩

/-! ## Page classification and result aggregation
(crawl_mcp.py lines 211-313, `results_to_markdown`)

A crawl result is read through `getattr(result, "markdown", None)`,
`getattr(result, "text", None)` and `result.metadata.get(...)`, modelled as
optional fields.  The ambient effects of the aggregator — the two
`datetime.now()` calls, the per-page `datetime.now().isoformat()`, and the
fallibility of `open` and `md_file.write` — are supplied by a `WriteEnv`.
The file contents written so far are returned alongside the result
dictionary. -/

structure PageResult where
  url : Str
  markdown : Option Str
  text : Option Str
  depth : Option Int
  title : Option Str

/-- `getattr(result, "markdown", None) or getattr(result, "text", None)`
(line 234): a falsy (absent or empty) markdown field falls back to `text`. -/
def textForOutput (r : PageResult) : Option Str :=
  match r.markdown with
  | some s => if s = [] then r.text else some s
  | none => r.text

/-- `result.metadata.get("title", "Untitled page")` (line 260). -/
def titleStr (r : PageResult) : Str := r.title.getD (str "Untitled page")

/-- `result.metadata.get("depth", "N/A")` as it is rendered into the
template (line 258 and 281). -/
def depthStr (r : PageResult) : Str :=
  match r.depth with
  | some d => (Int.repr d).data
  | none => str "N/A"

/-- The per-page outcome of the loop body of lines 232-271. -/
inductive Outcome where
  | noContent
  | errNotFound
  | errForbidden
  | accepted (stripped : Str)

def Outcome.isAccepted : Outcome → Bool
  | .accepted _ => true
  | _ => false

/-- The decision sequence of the loop body (lines 234-271): missing or
empty text, then the body signature check (`"404 Not Found"` or
`"403 Forbidden"`, with `"nginx"`), then the title indicators
(`"404"`, `"403"`, `"Not Found"`, `"Forbidden"`), else the page is
accepted with links removed (line 254). -/
def classify (r : PageResult) : Outcome :=
  match textForOutput r with
  | none => .noContent
  | some t =>
    if t = [] then .noContent
    else if (hasSub (str "404 Not Found") t || hasSub (str "403 Forbidden") t)
        && hasSub (str "nginx") t then
      if hasSub (str "404 Not Found") t then .errNotFound else .errForbidden
    else if hasSub (str "404") (titleStr r) || hasSub (str "403") (titleStr r)
        || hasSub (str "Not Found") (titleStr r) || hasSub (str "Forbidden") (titleStr r) then
      if hasSub (str "404") (titleStr r) || hasSub (str "Not Found") (titleStr r) then
        .errNotFound
      else .errForbidden
    else .accepted (remove_links_from_markdown t)

/-- The stats dictionary of lines 222-228 and 296-298.  `end_time` and
`duration_seconds` model dictionary keys that exist only once lines
297-298 have run. -/
structure Stats where
  successful_pages : Nat
  failed_pages : Nat
  not_found_pages : Nat
  forbidden_pages : Nat
  start_time : Int
  end_time : Option Int
  duration_seconds : Option Int

def initStats (t : Int) : Stats :=
  { successful_pages := 0, failed_pages := 0, not_found_pages := 0,
    forbidden_pages := 0, start_time := t, end_time := none, duration_seconds := none }

def statSum (st : Stats) : Nat :=
  st.successful_pages + st.failed_pages + st.not_found_pages + st.forbidden_pages

/-- The ambient effects of one `results_to_markdown` call: whether `open`
raises, whether the n-th `md_file.write` raises (with which message), the
two `datetime.now()` readings, and the per-result `isoformat()` strings. -/
structure WriteEnv where
  openErr : Option Str
  writeErr : Nat → Option Str
  t_start : Int
  t_end : Int
  iso : Nat → Str

/-- The f-string template of lines 274-288, rendered for one accepted page. -/
def mdSectionL (iso : Str) (r : PageResult) (stripped : Str) : Str :=
  str "\n# " ++ titleStr r ++ str "\n\n## URL\n" ++ r.url ++
  str "\n\n## Metadata\n- Depth: " ++ depthStr r ++ str "\n- Timestamp: " ++ iso ++
  str "\n\n## Content\n" ++ stripped ++ str "\n\n---\n"

/-- Outcome of the writing loop: final stats, file contents written so
far, and the message of the exception that aborted the loop, if any. -/
structure LoopOut where
  stats : Stats
  content : Str
  exn : Option Str

/-- The `for result in results` loop of lines 232-290: each result is
classified and counted in exactly one bucket; accepted pages append a
rendered section, and a failing write aborts with the stats and contents
accumulated so far. -/
def rtmLoop (env : WriteEnv) : List PageResult → Nat → Nat → Stats → Str → LoopOut
  | [], _, _, st, content => ⟨st, content, none⟩
  | r :: rest, idx, w, st, content =>
    match classify r with
    | .noContent =>
      rtmLoop env rest (idx + 1) w { st with failed_pages := st.failed_pages + 1 } content
    | .errNotFound =>
      rtmLoop env rest (idx + 1) w { st with not_found_pages := st.not_found_pages + 1 } content
    | .errForbidden =>
      rtmLoop env rest (idx + 1) w { st with forbidden_pages := st.forbidden_pages + 1 } content
    | .accepted t =>
      match env.writeErr w with
      | some m => ⟨st, content, some m⟩
      | none =>
        rtmLoop env rest (idx + 1) (w + 1)
          { st with successful_pages := st.successful_pages + 1 }
          (content ++ mdSectionL (env.iso idx) r t)

/-- The dictionary returned by `results_to_markdown`. -/
structure MdResult where
  file_path : Option Str
  stats : Stats
  error : Option Str

/-- crawl_mcp.py lines 211-313, `results_to_markdown`, paired with the file
contents written.  On an exception from `open` or from a write, the
`except` branch of lines 306-313 returns the stats accumulated so far —
without `end_time` or `duration_seconds`, which are put into the
dictionary only on the success path (lines 297-298). -/
def results_to_markdown (env : WriteEnv) (results : List PageResult) (output_path : Str) :
    MdResult × Str :=
  match env.openErr with
  | some m =>
    ({ file_path := none, stats := initStats env.t_start,
       error := some (str "Writing error: " ++ m) }, [])
  | none =>
    match rtmLoop env results 0 0 (initStats env.t_start) [] with
    | ⟨st, content, some m⟩ =>
      ({ file_path := none, stats := st, error := some (str "Writing error: " ++ m) }, content)
    | ⟨st, content, none⟩ =>
      ({ file_path := some output_path,
         stats := { st with end_time := some env.t_end,
                            duration_seconds := some (env.t_end - env.t_start) },
         error := none }, content)

theorem rtmLoop_statSum (env : WriteEnv) (hw : ∀ n, env.writeErr n = none) :
    ∀ (rs : List PageResult) (idx w : Nat) (st : Stats) (content : Str),
      statSum (rtmLoop env rs idx w st content).stats = statSum st + rs.length ∧
      (rtmLoop env rs idx w st content).exn = none := by
  intro rs
  induction rs with
  | nil => intro idx w st content; simp [rtmLoop]
  | cons r rest ih =>
    intro idx w st content
    cases hcl : classify r with
    | noContent =>
      have h := ih (idx + 1) w { st with failed_pages := st.failed_pages + 1 } content
      simp only [rtmLoop, hcl]
      refine ⟨?_, h.2⟩
      rw [h.1]; simp [statSum]; omega
    | errNotFound =>
      have h := ih (idx + 1) w { st with not_found_pages := st.not_found_pages + 1 } content
      simp only [rtmLoop, hcl]
      refine ⟨?_, h.2⟩
      rw [h.1]; simp [statSum]; omega
    | errForbidden =>
      have h := ih (idx + 1) w { st with forbidden_pages := st.forbidden_pages + 1 } content
      simp only [rtmLoop, hcl]
      refine ⟨?_, h.2⟩
      rw [h.1]; simp [statSum]; omega
    | accepted t =>
      have h := ih (idx + 1) (w + 1) { st with successful_pages := st.successful_pages + 1 }
        (content ++ mdSectionL (env.iso idx) r t)
      simp only [rtmLoop, hcl, hw w]
      refine ⟨?_, h.2⟩
      rw [h.1]; simp [statSum]; omega

/-- Claim C3: when a sequence of results is fully processed (the artifact
opens and every write succeeds), each result lands in exactly one of the
four buckets: the final counters sum to the number of results. -/
theorem c3_stats_partition (env : WriteEnv) (results : List PageResult) (output_path : Str)
    (hopen : env.openErr = none) (hw : ∀ n, env.writeErr n = none) :
    statSum (results_to_markdown env results output_path).1.stats = results.length := by
  have h := rtmLoop_statSum env hw results 0 0 (initStats env.t_start) []
  simp only [results_to_markdown, hopen]
  obtain ⟨hsum, hexn⟩ := h
  rcases hr : rtmLoop env results 0 0 (initStats env.t_start) [] with ⟨st, content, exn⟩
  rw [hr] at hsum hexn
  simp only at hexn
  subst hexn
  simp only
  rw [hr] at *
  simp only [statSum] at hsum ⊢
  simpa [initStats] using hsum

/-- A `WriteEnv` with no failures. -/
def envPlain : WriteEnv :=
  { openErr := none, writeErr := fun _ => none, t_start := 0, t_end := 3,
    iso := fun _ => str "2025-01-01T00:00:00" }

/-- A `WriteEnv` whose first write raises. -/
def envWriteFail : WriteEnv :=
  { openErr := none, writeErr := fun _ => some (str "disk full"), t_start := 0, t_end := 3,
    iso := fun _ => str "2025-01-01T00:00:00" }

/-- An unremarkable page that is accepted by the classifier. -/
def pagePlain : PageResult :=
  { url := str "http://example.com/", markdown := some (str "hello world"),
    text := none, depth := some 0, title := none }

/-- A page whose body carries the nginx 404 signature. -/
def page404 : PageResult :=
  { url := str "http://example.com/gone",
    markdown := some (str "<html>404 Not Found nginx</html>"),
    text := none, depth := some 1, title := some (str "Perfectly fine title") }

/-- Witness for C3 at a concrete input: one accepted page and one
404-signature page, fully processed, give counters summing to 2. -/
theorem c3_stats_partition_witness :
    statSum (results_to_markdown envPlain [pagePlain, page404] (str "out.md")).1.stats = 2 := by
  have h := c3_stats_partition envPlain [pagePlain, page404] (str "out.md") rfl (fun _ => rfl)
  simpa using h

/-- Claim C4, counterexample: when the write of the single accepted page's
section raises, the aggregator returns a failure result (first conjunct)
whose stats dictionary has NO `duration_seconds` key at all (second
conjunct) — the claim asserts the field is present and nonnegative on
every returned result, including write-failure results. -/
theorem c4_duration_missing_on_write_error :
    ((results_to_markdown envWriteFail [pagePlain] (str "out.md")).1.error).isSome = true ∧
    (results_to_markdown envWriteFail [pagePlain] (str "out.md")).1.stats.duration_seconds
      = none := by
  decide

/-- Claim C4 as amended: every result the aggregator returns without error
carries `duration_seconds = end - start`, nonnegative whenever the clock
did not run backwards between the two `datetime.now()` readings; failure
results omit the field (see the counterexample). -/
theorem c4_duration_on_success (env : WriteEnv) (results : List PageResult) (output_path : Str)
    (hmono : env.t_start ≤ env.t_end)
    (herr : (results_to_markdown env results output_path).1.error = none) :
    (results_to_markdown env results output_path).1.stats.duration_seconds
        = some (env.t_end - env.t_start) ∧
    (0 : Int) ≤ env.t_end - env.t_start := by
  refine ⟨?_, by omega⟩
  rcases hopen : env.openErr with _ | m
  · rcases hr : rtmLoop env results 0 0 (initStats env.t_start) [] with ⟨st, content, exn⟩
    cases exn with
    | none => simp only [results_to_markdown, hopen, hr]
    | some m =>
      exfalso
      simp only [results_to_markdown, hopen, hr] at herr
      exact Option.noConfusion herr
  · exfalso
    simp only [results_to_markdown, hopen] at herr
    exact Option.noConfusion herr

/-- Witness for C4's amended theorem at a concrete input. -/
theorem c4_duration_on_success_witness :
    (results_to_markdown envPlain [pagePlain] (str "out.md")).1.stats.duration_seconds
        = some 3 ∧ (0 : Int) ≤ (3 : Int) := by
  have h := c4_duration_on_success envPlain [pagePlain] (str "out.md") (by decide) (by decide)
  simpa [envPlain] using h

/-- Claim C5: a present, nonempty text containing both `"404 Not Found"`
and `"nginx"` is classified as a not-found error page no matter what the
title is (the body check of line 244 precedes the title check of line
265): the not-found counter is incremented and nothing is written. -/
theorem c5_body_404_precedence (env : WriteEnv) (r : PageResult) (t : Str)
    (idx w : Nat) (st : Stats) (content : Str)
    (ht : textForOutput r = some t) (hne : t ≠ [])
    (h404 : hasSub (str "404 Not Found") t = true)
    (hng : hasSub (str "nginx") t = true) :
    classify r = Outcome.errNotFound ∧
    rtmLoop env [r] idx w st content =
      ⟨{ st with not_found_pages := st.not_found_pages + 1 }, content, none⟩ := by
  have hcl : classify r = Outcome.errNotFound := by
    simp [classify, ht, hne, h404, hng]
  exact ⟨hcl, by simp [rtmLoop, hcl]⟩

/-- Witness for C5 at a concrete input: `page404` has a perfectly ordinary
title, yet its body signature forces the not-found outcome. -/
theorem c5_body_404_precedence_witness :
    classify page404 = Outcome.errNotFound ∧
    rtmLoop envPlain [page404] 0 0 (initStats 0) [] =
      ⟨{ initStats 0 with not_found_pages := 1 }, [], none⟩ := by
  have h := c5_body_404_precedence envPlain page404
    (str "<html>404 Not Found nginx</html>") 0 0 (initStats 0) []
    (by decide) (by decide) (by decide) (by decide)
  simpa [initStats] using h

/-! ## Occurrence counting for claim C6

Claim C6 counts occurrences of the `## Content` heading in the artifact.
The lemmas below split `countSub` across concatenations whose boundary
character does not occur in the pattern — in the artifact every template
chunk and every section ends with a newline, and `"## Content"` contains
no newline, so no occurrence can straddle a boundary. -/

def contentPat : Str := str "## Content"

theorem countSub_cons (pat : Str) (c : Char) (t : Str) :
    countSub pat (c :: t) = countSub pat t + (if pat.isPrefixOf (c :: t) then 1 else 0) := rfl

theorem isPrefixOf_append_last :
    ∀ (a pat b : Str), a ≠ [] → (∀ x ∈ pat, a.getLast? ≠ some x) →
      pat.isPrefixOf (a ++ b) = pat.isPrefixOf a := by
  intro a
  induction a with
  | nil => intro pat b h _; exact absurd rfl h
  | cons x rest ih =>
    intro pat b _ hlast
    cases pat with
    | nil => simp [List.isPrefixOf]
    | cons p ps =>
      cases rest with
      | nil =>
        have hx : x ≠ p := by
          intro hxp
          exact hlast p (List.mem_cons_self p ps) (by simp [hxp])
        have hpx : (p == x) = false := beq_eq_false_iff_ne.mpr (Ne.symm hx)
        simp [List.isPrefixOf, hpx]
      | cons y a' =>
        have hih := ih ps b (by simp) (fun z hz => by
          have := hlast z (List.mem_cons_of_mem p hz)
          rwa [List.getLast?_cons_cons] at this)
        show (p == x && ps.isPrefixOf ((y :: a') ++ b)) = (p == x && ps.isPrefixOf (y :: a'))
        rw [hih]

theorem countSub_append (pat : Str) :
    ∀ (a b : Str), (∀ x ∈ pat, a.getLast? ≠ some x) →
      countSub pat (a ++ b) = countSub pat a + countSub pat b := by
  intro a
  induction a with
  | nil => intro b _; simp [countSub]
  | cons x rest ih =>
    intro b hlast
    have hpre : pat.isPrefixOf ((x :: rest) ++ b) = pat.isPrefixOf (x :: rest) :=
      isPrefixOf_append_last (x :: rest) pat b (by simp) hlast
    cases rest with
    | nil =>
      have h1 : countSub pat ([x] ++ b) = countSub pat b + (if pat.isPrefixOf ([x] ++ b) then 1 else 0) :=
        countSub_cons pat x b
      have h2 : countSub pat [x] = 0 + (if pat.isPrefixOf [x] then 1 else 0) :=
        countSub_cons pat x []
      rw [h1, h2, hpre]
      omega
    | cons y a' =>
      have htail := ih b (fun z hz => by
        have := hlast z hz
        rwa [List.getLast?_cons_cons] at this)
      have h1 : countSub pat ((x :: y :: a') ++ b) =
          countSub pat ((y :: a') ++ b) + (if pat.isPrefixOf ((x :: y :: a') ++ b) then 1 else 0) :=
        countSub_cons pat x ((y :: a') ++ b)
      have h2 : countSub pat (x :: y :: a') =
          countSub pat (y :: a') + (if pat.isPrefixOf (x :: y :: a') then 1 else 0) :=
        countSub_cons pat x (y :: a')
      rw [h1, h2, hpre, htail]
      omega

theorem isPrefixOf_append_single (c : Char) :
    ∀ (pat a : Str), c ∉ pat → pat.isPrefixOf (a ++ [c]) = pat.isPrefixOf a := by
  intro pat
  induction pat with
  | nil => intro a _; simp [List.isPrefixOf]
  | cons p ps ih =>
    intro a hc
    have hpc : (p == c) = false := by
      rcases eq_or_ne p c with rfl | hne
      · exact absurd (List.mem_cons_self p ps) hc
      · exact beq_eq_false_iff_ne.mpr hne
    cases a with
    | nil => simp [List.isPrefixOf, hpc]
    | cons x a' =>
      have hih := ih a' (fun h => hc (List.mem_cons_of_mem p h))
      show (p == x && ps.isPrefixOf (a' ++ [c])) = (p == x && ps.isPrefixOf a')
      rw [hih]

theorem countSub_append_single (pat : Str) (c : Char) (hc : c ∉ pat) (hpat : pat ≠ []) :
    ∀ a : Str, countSub pat (a ++ [c]) = countSub pat a := by
  intro a
  induction a with
  | nil =>
    cases pat with
    | nil => exact absurd rfl hpat
    | cons p ps =>
      have hpc : (p == c) = false := by
        rcases eq_or_ne p c with rfl | hne
        · exact absurd (List.mem_cons_self p ps) hc
        · exact beq_eq_false_iff_ne.mpr hne
      simp [countSub, List.isPrefixOf, hpc]
  | cons x a' ih =>
    have h1 : countSub pat ((x :: a') ++ [c]) =
        countSub pat (a' ++ [c]) + (if pat.isPrefixOf ((x :: a') ++ [c]) then 1 else 0) :=
      countSub_cons pat x (a' ++ [c])
    rw [h1, ih, isPrefixOf_append_single c pat (x :: a') hc, countSub_cons pat x a']

theorem countSub_cons_ne (pat : Str) (c : Char) (hc : c ∉ pat) (hpat : pat ≠ []) (b : Str) :
    countSub pat (c :: b) = countSub pat b := by
  cases pat with
  | nil => exact absurd rfl hpat
  | cons p ps =>
    have hpc : (p == c) = false := by
      rcases eq_or_ne p c with rfl | hne
      · exact absurd (List.mem_cons_self p ps) hc
      · exact beq_eq_false_iff_ne.mpr hne
    simp [countSub_cons, List.isPrefixOf, hpc]

theorem countSub_append_cons (pat : Str) (c : Char) (hc : c ∉ pat) (hpat : pat ≠ [])
    (a b : Str) :
    countSub pat (a ++ (c :: b)) = countSub pat a + countSub pat (c :: b) := by
  have h1 : a ++ (c :: b) = (a ++ [c]) ++ b := by simp
  have hlast : ∀ x ∈ pat, (a ++ [c]).getLast? ≠ some x := by
    intro x hx h
    rw [List.getLast?_concat] at h
    injection h with h
    rw [h] at hc
    exact hc hx
  rw [h1, countSub_append pat (a ++ [c]) b hlast, countSub_append_single pat c hc hpat a,
    countSub_cons_ne pat c hc hpat b]

/-- The rendered section of `mdSectionL` in right-nested form: every
literal chunk is newline-terminated, the variable parts (title, url,
depth, timestamp, stripped content) are each followed by a newline. -/
def secNorm (T U D I S : Str) : Str :=
  '\n' :: '#' :: ' ' ::
  (T ++ ('\n' :: '\n' :: '#' :: '#' :: ' ' :: 'U' :: 'R' :: 'L' :: '\n' ::
  (U ++ ('\n' :: '\n' :: '#' :: '#' :: ' ' :: 'M' :: 'e' :: 't' :: 'a' :: 'd' :: 'a' ::
    't' :: 'a' :: '\n' :: '-' :: ' ' :: 'D' :: 'e' :: 'p' :: 't' :: 'h' :: ':' :: ' ' ::
  (D ++ ('\n' :: '-' :: ' ' :: 'T' :: 'i' :: 'm' :: 'e' :: 's' :: 't' :: 'a' :: 'm' ::
    'p' :: ':' :: ' ' ::
  (I ++ ('\n' :: '\n' :: '#' :: '#' :: ' ' :: 'C' :: 'o' :: 'n' :: 't' :: 'e' :: 'n' ::
    't' :: '\n' ::
  (S ++ ('\n' :: '\n' :: '-' :: '-' :: '-' :: '\n' :: []))))))))))

theorem mdSectionL_secNorm (iso : Str) (r : PageResult) (stripped : Str) :
    mdSectionL iso r stripped = secNorm (titleStr r) r.url (depthStr r) iso stripped := by
  simp only [mdSectionL, secNorm, List.append_assoc]
  rfl

theorem cntA (rest : Str) :
    countSub contentPat ('\n' :: '#' :: ' ' :: rest) = countSub contentPat rest := rfl

theorem cntB (rest : Str) :
    countSub contentPat ('\n' :: '\n' :: '#' :: '#' :: ' ' :: 'U' :: 'R' :: 'L' :: '\n' :: rest)
      = countSub contentPat rest := rfl

theorem cntC (rest : Str) :
    countSub contentPat ('\n' :: '\n' :: '#' :: '#' :: ' ' :: 'M' :: 'e' :: 't' :: 'a' ::
      'd' :: 'a' :: 't' :: 'a' :: '\n' :: '-' :: ' ' :: 'D' :: 'e' :: 'p' :: 't' :: 'h' ::
      ':' :: ' ' :: rest) = countSub contentPat rest := rfl

theorem cntD (rest : Str) :
    countSub contentPat ('\n' :: '-' :: ' ' :: 'T' :: 'i' :: 'm' :: 'e' :: 's' :: 't' ::
      'a' :: 'm' :: 'p' :: ':' :: ' ' :: rest) = countSub contentPat rest := rfl

theorem cntE (rest : Str) :
    countSub contentPat ('\n' :: '\n' :: '#' :: '#' :: ' ' :: 'C' :: 'o' :: 'n' :: 't' ::
      'e' :: 'n' :: 't' :: '\n' :: rest) = countSub contentPat rest + 1 := rfl

theorem cntVar (X rest : Str) (hX : countSub contentPat X = 0) :
    countSub contentPat (X ++ ('\n' :: rest)) = countSub contentPat ('\n' :: rest) := by
  rw [countSub_append_cons contentPat '\n' (by decide) (by decide) X rest, hX, Nat.zero_add]

theorem countSub_secNorm (T U D I S : Str)
    (hT : countSub contentPat T = 0) (hU : countSub contentPat U = 0)
    (hD : countSub contentPat D = 0) (hI : countSub contentPat I = 0)
    (hS : countSub contentPat S = 0) :
    countSub contentPat (secNorm T U D I S) = 1 := by
  simp only [secNorm]
  rw [cntA, cntVar _ _ hT, cntB, cntVar _ _ hU, cntC, cntVar _ _ hD, cntD,
    cntVar _ _ hI, cntE, cntVar _ _ hS]
  decide

theorem getLast?_cons_ne (x : Char) (l : Str) (h : l ≠ []) :
    (x :: l).getLast? = l.getLast? := by
  cases l with
  | nil => exact absurd rfl h
  | cons y t => exact List.getLast?_cons_cons

theorem getLast?_append_ne (b : Str) (hb : b ≠ []) :
    ∀ a : Str, (a ++ b).getLast? = b.getLast? := by
  intro a
  induction a with
  | nil => rfl
  | cons x t ih =>
    have hne : t ++ b ≠ [] := by
      intro h
      exact hb (List.append_eq_nil.mp h).2
    calc ((x :: t) ++ b).getLast? = (x :: (t ++ b)).getLast? := by rw [List.cons_append]
      _ = (t ++ b).getLast? := getLast?_cons_ne x (t ++ b) hne
      _ = b.getLast? := ih

theorem secNorm_getLast (T U D I S : Str) : (secNorm T U D I S).getLast? = some '\n' := by
  have h : secNorm T U D I S =
      ('\n' :: '#' :: ' ' ::
      (T ++ ('\n' :: '\n' :: '#' :: '#' :: ' ' :: 'U' :: 'R' :: 'L' :: '\n' ::
      (U ++ ('\n' :: '\n' :: '#' :: '#' :: ' ' :: 'M' :: 'e' :: 't' :: 'a' :: 'd' :: 'a' ::
        't' :: 'a' :: '\n' :: '-' :: ' ' :: 'D' :: 'e' :: 'p' :: 't' :: 'h' :: ':' :: ' ' ::
      (D ++ ('\n' :: '-' :: ' ' :: 'T' :: 'i' :: 'm' :: 'e' :: 's' :: 't' :: 'a' :: 'm' ::
        'p' :: ':' :: ' ' ::
      (I ++ ('\n' :: '\n' :: '#' :: '#' :: ' ' :: 'C' :: 'o' :: 'n' :: 't' :: 'e' :: 'n' ::
        't' :: '\n' ::
      (S ++ ['\n', '\n', '-', '-', '-'])))))))))) ++ ['\n'] := by
    simp [secNorm, List.append_assoc]
  rw [h, List.getLast?_concat]

theorem isPrefixOf_append_mono :
    ∀ (pat l b : Str), pat.isPrefixOf l = true → pat.isPrefixOf (l ++ b) = true := by
  intro pat
  induction pat with
  | nil => intro l b _; simp [List.isPrefixOf]
  | cons p ps ih =>
    intro l b h
    cases l with
    | nil => simp [List.isPrefixOf] at h
    | cons x l' =>
      simp only [List.cons_append, List.isPrefixOf, Bool.and_eq_true] at h ⊢
      exact ⟨h.1, ih l' b h.2⟩

theorem countSub_append_ge (pat : Str) :
    ∀ a b : Str, countSub pat a + countSub pat b ≤ countSub pat (a ++ b) := by
  intro a
  induction a with
  | nil => intro b; simp [countSub]
  | cons x rest ih =>
    intro b
    have h1 : countSub pat ((x :: rest) ++ b)
        = countSub pat (rest ++ b) + (if pat.isPrefixOf ((x :: rest) ++ b) then 1 else 0) :=
      countSub_cons pat x (rest ++ b)
    have h2 : countSub pat (x :: rest)
        = countSub pat rest + (if pat.isPrefixOf (x :: rest) then 1 else 0) :=
      countSub_cons pat x rest
    have hmono : (if pat.isPrefixOf (x :: rest) then 1 else 0)
        ≤ (if pat.isPrefixOf ((x :: rest) ++ b) then 1 else 0) := by
      by_cases h : pat.isPrefixOf (x :: rest) = true
      · rw [h, isPrefixOf_append_mono pat (x :: rest) b h]
      · simp [h]
    have h3 := ih b
    omega

theorem countSub_le_append_left (pat a b : Str) :
    countSub pat b ≤ countSub pat (a ++ b) :=
  le_trans (Nat.le_add_left _ _) (countSub_append_ge pat a b)

/-- Every rendered section contains at least one `## Content` occurrence —
the one contributed by the template's own heading line — whatever the
variable parts are. -/
theorem secNorm_ge_one (T U D I S : Str) : 1 ≤ countSub contentPat (secNorm T U D I S) := by
  have h5 : 1 ≤ countSub contentPat
      ('\n' :: '\n' :: '#' :: '#' :: ' ' :: 'C' :: 'o' :: 'n' :: 't' :: 'e' :: 'n' :: 't' :: '\n' ::
        (S ++ ('\n' :: '\n' :: '-' :: '-' :: '-' :: '\n' :: []))) := by
    rw [cntE]
    omega
  simp only [secNorm]
  exact le_trans (le_trans (le_trans (le_trans (le_trans (le_trans (le_trans (le_trans h5
    (countSub_le_append_left contentPat I _))
    (countSub_le_append_left contentPat
      ['\n', '-', ' ', 'T', 'i', 'm', 'e', 's', 't', 'a', 'm', 'p', ':', ' '] _))
    (countSub_le_append_left contentPat D _))
    (countSub_le_append_left contentPat
      ['\n', '\n', '#', '#', ' ', 'M', 'e', 't', 'a', 'd', 'a', 't', 'a', '\n', '-', ' ',
        'D', 'e', 'p', 't', 'h', ':', ' '] _))
    (countSub_le_append_left contentPat U _))
    (countSub_le_append_left contentPat ['\n', '\n', '#', '#', ' ', 'U', 'R', 'L', '\n'] _))
    (countSub_le_append_left contentPat T _))
    (countSub_le_append_left contentPat ['\n', '#', ' '] _)

/-- The text an accepted page contributes to the artifact (`[]` for a page
that is not accepted). -/
def strippedOf (r : PageResult) : Str :=
  match classify r with
  | .accepted t => t
  | _ => []

theorem rtmLoop_success_count (env : WriteEnv) (hw : ∀ n, env.writeErr n = none) :
    ∀ (rs : List PageResult) (idx w : Nat) (st : Stats) (content : Str),
      (rtmLoop env rs idx w st content).stats.successful_pages
        = st.successful_pages + rs.countP (fun r => (classify r).isAccepted) := by
  intro rs
  induction rs with
  | nil => intro idx w st content; simp [rtmLoop]
  | cons r rest ih =>
    intro idx w st content
    cases hcl : classify r with
    | noContent =>
      simp only [rtmLoop, hcl]
      rw [ih]
      simp [List.countP_cons, hcl, Outcome.isAccepted]
    | errNotFound =>
      simp only [rtmLoop, hcl]
      rw [ih]
      simp [List.countP_cons, hcl, Outcome.isAccepted]
    | errForbidden =>
      simp only [rtmLoop, hcl]
      rw [ih]
      simp [List.countP_cons, hcl, Outcome.isAccepted]
    | accepted t =>
      simp only [rtmLoop, hcl, hw w]
      rw [ih]
      simp [List.countP_cons, hcl, Outcome.isAccepted]
      omega

theorem rtmLoop_content_count (env : WriteEnv)
    (hw : ∀ n, env.writeErr n = none)
    (hiso : ∀ n, countSub contentPat (env.iso n) = 0) :
    ∀ (rs : List PageResult),
      (∀ r ∈ rs, countSub contentPat (titleStr r) = 0 ∧ countSub contentPat r.url = 0 ∧
        countSub contentPat (depthStr r) = 0 ∧ countSub contentPat (strippedOf r) = 0) →
      ∀ (idx w : Nat) (st : Stats) (content : Str),
        (content = [] ∨ content.getLast? = some '\n') →
        countSub contentPat (rtmLoop env rs idx w st content).content
          = countSub contentPat content + rs.countP (fun r => (classify r).isAccepted) := by
  intro rs
  induction rs with
  | nil => intro _ idx w st content _; simp [rtmLoop]
  | cons r rest ih =>
    intro hres idx w st content hinv
    have hr := hres r (List.mem_cons_self r rest)
    have hrest := fun r' hr' => hres r' (List.mem_cons_of_mem r hr')
    cases hcl : classify r with
    | noContent =>
      simp only [rtmLoop, hcl]
      rw [ih hrest (idx + 1) w _ content hinv]
      simp [List.countP_cons, hcl, Outcome.isAccepted]
    | errNotFound =>
      simp only [rtmLoop, hcl]
      rw [ih hrest (idx + 1) w _ content hinv]
      simp [List.countP_cons, hcl, Outcome.isAccepted]
    | errForbidden =>
      simp only [rtmLoop, hcl]
      rw [ih hrest (idx + 1) w _ content hinv]
      simp [List.countP_cons, hcl, Outcome.isAccepted]
    | accepted t =>
      simp only [rtmLoop, hcl, hw w]
      have hstr : strippedOf r = t := by simp [strippedOf, hcl]
      have hsec : countSub contentPat (mdSectionL (env.iso idx) r t) = 1 := by
        rw [mdSectionL_secNorm]
        exact countSub_secNorm _ _ _ _ _ hr.1 hr.2.1 hr.2.2.1 (hiso idx) (hstr ▸ hr.2.2.2)
      have hlastc : ∀ x ∈ contentPat, content.getLast? ≠ some x := by
        rcases hinv with h | h
        · subst h
          intro x _ hx
          simp at hx
        · intro x hx hcontra
          rw [h] at hcontra
          injection hcontra with he
          rw [← he] at hx
          exact absurd hx (by decide)
      have hsplit : countSub contentPat (content ++ mdSectionL (env.iso idx) r t)
          = countSub contentPat content + 1 := by
        rw [countSub_append contentPat content _ hlastc, hsec]
      have hinv' : (content ++ mdSectionL (env.iso idx) r t) = [] ∨
          (content ++ mdSectionL (env.iso idx) r t).getLast? = some '\n' := by
        right
        rw [mdSectionL_secNorm, getLast?_append_ne _ (by simp [secNorm]) content]
        exact secNorm_getLast _ _ _ _ _
      rw [ih hrest (idx + 1) (w + 1) _ _ hinv', hsplit]
      simp [List.countP_cons, hcl, Outcome.isAccepted]
      omega

theorem rtmLoop_content_count_ge (env : WriteEnv) (hw : ∀ n, env.writeErr n = none) :
    ∀ (rs : List PageResult) (idx w : Nat) (st : Stats) (content : Str),
      countSub contentPat content + rs.countP (fun r => (classify r).isAccepted)
        ≤ countSub contentPat (rtmLoop env rs idx w st content).content := by
  intro rs
  induction rs with
  | nil => intro idx w st content; simp [rtmLoop]
  | cons r rest ih =>
    intro idx w st content
    cases hcl : classify r with
    | noContent =>
      simp only [rtmLoop, hcl]
      have hih := ih (idx + 1) w { st with failed_pages := st.failed_pages + 1 } content
      have hacc : (classify r).isAccepted = false := by rw [hcl]; rfl
      rw [List.countP_cons]
      simp [hacc]
      omega
    | errNotFound =>
      simp only [rtmLoop, hcl]
      have hih := ih (idx + 1) w { st with not_found_pages := st.not_found_pages + 1 } content
      have hacc : (classify r).isAccepted = false := by rw [hcl]; rfl
      rw [List.countP_cons]
      simp [hacc]
      omega
    | errForbidden =>
      simp only [rtmLoop, hcl]
      have hih := ih (idx + 1) w { st with forbidden_pages := st.forbidden_pages + 1 } content
      have hacc : (classify r).isAccepted = false := by rw [hcl]; rfl
      rw [List.countP_cons]
      simp [hacc]
      omega
    | accepted t =>
      simp only [rtmLoop, hcl, hw w]
      have hacc : (classify r).isAccepted = true := by rw [hcl]; rfl
      have hsec : 1 ≤ countSub contentPat (mdSectionL (env.iso idx) r t) := by
        rw [mdSectionL_secNorm]
        exact secNorm_ge_one _ _ _ _ _
      have hsplit := countSub_append_ge contentPat content (mdSectionL (env.iso idx) r t)
      have hih := ih (idx + 1) (w + 1)
        { st with successful_pages := st.successful_pages + 1 }
        (content ++ mdSectionL (env.iso idx) r t)
      rw [List.countP_cons]
      simp [hacc]
      omega

/-- Claim C6 as amended, in three parts for every fully processed run:
`successful_pages` equals the number k of accepted results and the
artifact contains at least k occurrences of `## Content`, both without
further hypotheses; and the artifact contains exactly k occurrences
provided no rendered field of any page (title, url, depth, timestamp,
stripped content) itself contains the substring `## Content`. -/
theorem c6_content_heading_count (env : WriteEnv) (results : List PageResult)
    (output_path : Str)
    (hopen : env.openErr = none) (hw : ∀ n, env.writeErr n = none) :
    (results_to_markdown env results output_path).1.stats.successful_pages
        = results.countP (fun r => (classify r).isAccepted) ∧
    results.countP (fun r => (classify r).isAccepted)
        ≤ countSub contentPat (results_to_markdown env results output_path).2 ∧
    ((∀ n, countSub contentPat (env.iso n) = 0) →
      (∀ r ∈ results, countSub contentPat (titleStr r) = 0 ∧
        countSub contentPat r.url = 0 ∧ countSub contentPat (depthStr r) = 0 ∧
        countSub contentPat (strippedOf r) = 0) →
      countSub contentPat (results_to_markdown env results output_path).2
          = results.countP (fun r => (classify r).isAccepted)) := by
  have hsucc := rtmLoop_success_count env hw results 0 0 (initStats env.t_start) []
  have hge := rtmLoop_content_count_ge env hw results 0 0 (initStats env.t_start) []
  have hexn := (rtmLoop_statSum env hw results 0 0 (initStats env.t_start) []).2
  rcases hrl : rtmLoop env results 0 0 (initStats env.t_start) [] with ⟨st, content, exn⟩
  rw [hrl] at hsucc hge hexn
  simp only at hsucc hge hexn
  subst hexn
  refine ⟨?_, ?_, ?_⟩
  · simp only [results_to_markdown, hopen, hrl]
    simpa [initStats] using hsucc
  · simp only [results_to_markdown, hopen, hrl]
    simpa [countSub] using hge
  · intro hiso hres
    have hloop := rtmLoop_content_count env hw hiso results hres 0 0 (initStats env.t_start) []
      (Or.inl rfl)
    rw [hrl] at hloop
    simp only at hloop
    simp only [results_to_markdown, hopen, hrl]
    simpa [countSub] using hloop

/-- A page whose own content is exactly the heading text `## Content`. -/
def pageSelfRef : PageResult :=
  { url := str "http://example.com/t", markdown := some (str "## Content"),
    text := none, depth := some 0, title := none }

set_option maxRecDepth 8000 in
/-- Claim C6, counterexample: a single accepted page (k = 1, and
`successful_pages = 1`) whose content itself reads `## Content` produces
an artifact with two occurrences of `## Content`, not one. -/
theorem c6_content_heading_extra :
    (results_to_markdown envPlain [pageSelfRef] (str "out.md")).1.stats.successful_pages = 1 ∧
    ([pageSelfRef].countP (fun r => (classify r).isAccepted)) = 1 ∧
    countSub contentPat (results_to_markdown envPlain [pageSelfRef] (str "out.md")).2 = 2 := by
  refine ⟨by decide, by decide, by decide⟩

/-- Witness for C6's amended theorem at a concrete input: one ordinary
accepted page, fully processed, with all three parts instantiated — the
no-collision hypotheses of the exact-count part are discharged
concretely. -/
theorem c6_content_heading_count_witness :
    (results_to_markdown envPlain [pagePlain] (str "out.md")).1.stats.successful_pages = 1 ∧
    1 ≤ countSub contentPat (results_to_markdown envPlain [pagePlain] (str "out.md")).2 ∧
    countSub contentPat (results_to_markdown envPlain [pagePlain] (str "out.md")).2 = 1 := by
  have h := c6_content_heading_count envPlain [pagePlain] (str "out.md") rfl (fun _ => rfl)
  have hk : ([pagePlain].countP (fun r => (classify r).isAccepted)) = 1 := by decide
  rw [hk] at h
  exact ⟨h.1, h.2.1, h.2.2 (fun _ => rfl) (by decide)⟩

/-! ## Output-file resolution (crawl_mcp.py lines 86-96 and 172-175) -/

/-- The fields of `datetime.now()` used by `strftime("%Y%m%d_%H%M%S")`. -/
structure Timestamp6 where
  year : Nat
  month : Nat
  day : Nat
  hour : Nat
  minute : Nat
  second : Nat

def pad2 (n : Nat) : Str := if n < 10 then '0' :: (Nat.repr n).data else (Nat.repr n).data

def pad4 (n : Nat) : Str :=
  if n < 10 then str "000" ++ (Nat.repr n).data
  else if n < 100 then str "00" ++ (Nat.repr n).data
  else if n < 1000 then str "0" ++ (Nat.repr n).data
  else (Nat.repr n).data

/-- `datetime.now().strftime("%Y%m%d_%H%M%S")` (line 93). -/
def strftimeYmdHMS (t : Timestamp6) : Str :=
  pad4 t.year ++ pad2 t.month ++ pad2 t.day ++ ['_'] ++
  pad2 t.hour ++ pad2 t.minute ++ pad2 t.second

/-- Characters a URL scheme may contain after its leading letter. -/
def isSchemeChar (c : Char) : Bool := c.isAlphanum || c = '+' || c = '-' || c = '.'

/-- The scheme-stripping step of `urllib.parse.urlparse`: when the text
before the first `:` is a letter followed by scheme characters, the
scheme and the colon are removed. -/
def splitScheme (u : Str) : Str :=
  match subIndex [':'] u with
  | none => u
  | some i =>
    match u.take i with
    | [] => u
    | c0 :: restc => if c0.isAlpha && restc.all isSchemeChar then u.drop (i + 1) else u

/-- `urllib.parse.urlparse(url).netloc`: present only after a leading
`//`, extending to the next `/`, `?` or `#`. -/
def netloc (u : Str) : Str :=
  match splitScheme u with
  | '/' :: '/' :: t => t.takeWhile (fun c => c ≠ '/' && c ≠ '?' && c ≠ '#')
  | _ => []

/-- crawl_mcp.py lines 86-96, `generate_filename_from_url`: only dots in
the netloc are rewritten, by `hostname = parsed_url.netloc.replace(".", "_")`. -/
def generate_filename_from_url (now : Timestamp6) (url : Str) : Str :=
  str "crawl_" ++ replaceAll ['.'] ['_'] (netloc url) ++ ['_'] ++
  strftimeYmdHMS now ++ str ".md"

/-- POSIX `os.path.join` for the two-argument uses in the source. -/
def pathJoin (a b : Str) : Str :=
  match b with
  | '/' :: _ => b
  | _ => if a = [] then b
         else if a.getLast? = some '/' then a ++ b
         else a ++ ('/' :: b)

/-- crawl_mcp.py lines 172-175: a falsy (absent or empty) `output_file` is
replaced by a generated name inside the results directory; the directory
path itself comes from `get_results_directory` (resolved next to the
running script) and is passed in here. -/
def resolveOutputFile (resultsDir : Str) (now : Timestamp6) (startUrl : Str)
    (output_file : Option Str) : Str :=
  match output_file with
  | some f =>
    if f = [] then pathJoin resultsDir (generate_filename_from_url now startUrl) else f
  | none => pathJoin resultsDir (generate_filename_from_url now startUrl)

/-- Claim C7, counterexample: for `http://example.com:8080` the derived
filename keeps the colon of the port separator verbatim — the host
portion is not reduced to alphanumerics and underscores, only dots are
replaced. -/
theorem c7_colon_not_replaced :
    resolveOutputFile (str "/app/crawl_results") ⟨2025, 1, 2, 3, 4, 5⟩
        (str "http://example.com:8080") none
      = str "/app/crawl_results/crawl_example_com:8080_20250102_030405.md" ∧
    ':' ∈ resolveOutputFile (str "/app/crawl_results") ⟨2025, 1, 2, 3, 4, 5⟩
        (str "http://example.com:8080") none := by
  refine ⟨by decide, by decide⟩

theorem dot_not_mem_replaceAllGo (fuel : Nat) :
    ∀ l : Str, l.length ≤ fuel → '.' ∉ replaceAllGo ['.'] ['_'] fuel l := by
  induction fuel with
  | zero =>
    intro l hl
    have : l = [] := List.eq_nil_of_length_eq_zero (Nat.le_zero.mp hl)
    subst this
    simp [replaceAllGo]
  | succ fuel ih =>
    intro l hl
    cases l with
    | nil => simp [replaceAllGo]
    | cons c t =>
      simp only [replaceAllGo]
      by_cases hc : (['.'] : Str).isPrefixOf (c :: t) && !(['.'] : Str).isEmpty
      · rw [if_pos hc]
        intro hmem
        rw [List.mem_append] at hmem
        rcases hmem with h | hmem
        · exact absurd h (by decide)
        · have hdrop : replaceAllGo ['.'] ['_'] fuel (t.drop ((['.'] : Str).length - 1))
              = replaceAllGo ['.'] ['_'] fuel t := by simp
          rw [hdrop] at hmem
          exact ih t (Nat.le_of_succ_le_succ hl) hmem
      · rw [if_neg hc]
        intro hmem
        rcases List.mem_cons.mp hmem with h | hmem
        · subst h
          exact hc (by simp [List.isPrefixOf])
        · exact ih t (Nat.le_of_succ_le_succ hl) hmem

theorem dot_not_mem_host (u : Str) : '.' ∉ replaceAll ['.'] ['_'] (netloc u) :=
  dot_not_mem_replaceAllGo _ _ (Nat.le_refl _)

/-- Claim C7 as amended: with no `output_file`, the orchestrator writes
`crawl_{netloc}_{YYYYMMDD_HHMMSS}.md` into the results directory where
only the DOTS of the netloc are replaced with `_` (no dot survives, but
every other character — hyphens, the port colon — is kept verbatim, see
the counterexample); a supplied nonempty `output_file` is used verbatim. -/
theorem c7_filename_format (resultsDir : Str) (now : Timestamp6) (url : Str) (f : Str) :
    resolveOutputFile resultsDir now url none
        = pathJoin resultsDir (str "crawl_" ++ replaceAll ['.'] ['_'] (netloc url) ++ ['_'] ++
            strftimeYmdHMS now ++ str ".md") ∧
    '.' ∉ replaceAll ['.'] ['_'] (netloc url) ∧
    (f ≠ [] → resolveOutputFile resultsDir now url (some f) = f) := by
  refine ⟨rfl, dot_not_mem_host url, ?_⟩
  intro hf
  simp [resolveOutputFile, hf]

/-- Witness for C7's amended theorem at a concrete input. -/
theorem c7_filename_format_witness :
    resolveOutputFile (str "/r") ⟨2025, 1, 2, 3, 4, 5⟩ (str "http://a.io") none
        = str "/r/crawl_a_io_20250102_030405.md" ∧
    resolveOutputFile (str "/r") ⟨2025, 1, 2, 3, 4, 5⟩ (str "http://a.io")
        (some (str "given.md")) = str "given.md" := by
  have h := c7_filename_format (str "/r") ⟨2025, 1, 2, 3, 4, 5⟩ (str "http://a.io")
    (str "given.md")
  refine ⟨?_, h.2.2 (by decide)⟩
  rw [h.1]
  decide

/-! ## Tool server dispatch (crawl_mcp.py lines 326-375, `crawl_tool`)

The handler's text universe is modelled as lists of natural code points so
that the `except` branch can reuse `sanitize_text`.  The crawl pipeline
behind `await crawl_and_output_to_markdown(...)` and the summary f-string
of lines 358-368 are orthogonal to the validation this claim is about;
they are passed in as parameters: `runCrawl` (with `Except.error` for a
raised exception) and `mkSummary`. -/

/-- An argument value of the tool-call `arguments` dictionary. -/
inductive PyArg where
  | vStr (s : List Nat)
  | vInt (n : Int)
  | vBool (b : Bool)
  | vNone

/-- `arguments.get(k)` / `k in arguments`. -/
def lookupArg (arguments : List (String × PyArg)) (k : String) : Option PyArg :=
  (arguments.find? (fun p => p.1 == k)).map (fun p => p.2)

/-- The argument bundle of the orchestrator call (lines 335-338, 341-347,
with the source's defaults). -/
structure RunArgs where
  url : PyArg
  max_depth : PyArg
  include_external : PyArg
  verbose : PyArg
  output_file : PyArg

/-- The dictionary `crawl_and_output_to_markdown` resolves to, as read by
`crawl_tool` (lines 349-364). -/
structure ToolCrawlResult where
  error : Option (List Nat)
  file_path : Option (List Nat)
  stats : Stats

/-- What one handler invocation does at the server boundary. -/
inductive CallOutcome where
  | raised (msg : List Nat)
  | reply (texts : List (List Nat))

/-- Code points of a Lean string literal. -/
def codes (s : String) : List Nat := s.data.map Char.toNat

/-- The apostrophe code point. -/
def apos : Nat := 39

/-- The message of the `ValueError` raised at line 333. -/
def missingUrlMsg : List Nat :=
  codes "Missing required argument " ++ [apos] ++ codes "url" ++ [apos]

/-- crawl_mcp.py lines 326-375, `crawl_tool`.  Both checks of lines
330-333 run before the `try` block, so their `ValueError`s escape the
handler; exceptions from the orchestrator call are caught and sanitized
(line 374). -/
def crawl_tool (runCrawl : RunArgs → Except (List Nat) ToolCrawlResult)
    (mkSummary : ToolCrawlResult → List Nat)
    (name : String) (arguments : List (String × PyArg)) : CallOutcome :=
  if name ≠ "crawl" then .raised (codes "Unknown tool: " ++ codes name)
  else
    match lookupArg arguments "url" with
    | none => .raised missingUrlMsg
    | some url =>
      let max_depth := (lookupArg arguments "max_depth").getD (.vInt 2)
      let include_external := (lookupArg arguments "include_external").getD (.vBool false)
      let verbose := (lookupArg arguments "verbose").getD (.vBool true)
      let output_file := (lookupArg arguments "output_file").getD .vNone
      match runCrawl ⟨url, max_depth, include_external, verbose, output_file⟩ with
      | .error e => .reply [codes "Error: " ++ sanitize_text (PyVal.str e)]
      | .ok result =>
        match result.error with
        | some err => .reply [codes "Error: " ++ err]
        | none => .reply [mkSummary result]

/-- Modelled from the spec: the MCP tool-serving layer (the external
framework, not code of this repository) surfaces an exception escaping a
tool handler as a rejected (error) reply and keeps the server process
alive; a normal return becomes a content reply. -/
inductive ServerReply where
  | rejected (msg : List Nat)
  | contents (texts : List (List Nat))

/-- Modelled from the spec: the framework's handling of one tool call. -/
def serverDispatch : CallOutcome → ServerReply
  | .raised m => .rejected m
  | .reply ts => .contents ts

/-- Claim C9: calling the `crawl` tool with no `url` key raises the
`ValueError("Missing required argument 'url'")` of line 333 before any
crawling can start, whatever the orchestrator would do; at the server
boundary this surfaces as a rejected call carrying that message — never a
success reply, never a crash. -/
theorem c9_missing_url_rejected (runCrawl : RunArgs → Except (List Nat) ToolCrawlResult)
    (mkSummary : ToolCrawlResult → List Nat) (arguments : List (String × PyArg))
    (h : lookupArg arguments "url" = none) :
    crawl_tool runCrawl mkSummary "crawl" arguments = CallOutcome.raised missingUrlMsg ∧
    serverDispatch (crawl_tool runCrawl mkSummary "crawl" arguments)
      = ServerReply.rejected missingUrlMsg := by
  have hc : crawl_tool runCrawl mkSummary "crawl" arguments
      = CallOutcome.raised missingUrlMsg := by
    simp [crawl_tool, h]
  exact ⟨hc, by rw [hc]; rfl⟩

/-- Witness for C9 at a concrete input: arguments carrying only
`max_depth`, no `url`. -/
theorem c9_missing_url_rejected_witness :
    crawl_tool (fun _ => Except.error []) (fun _ => []) "crawl" [("max_depth", PyArg.vInt 2)]
        = CallOutcome.raised missingUrlMsg ∧
    serverDispatch (crawl_tool (fun _ => Except.error []) (fun _ => []) "crawl"
        [("max_depth", PyArg.vInt 2)]) = ServerReply.rejected missingUrlMsg :=
  c9_missing_url_rejected (fun _ => Except.error []) (fun _ => [])
    [("max_depth", PyArg.vInt 2)] rfl

end CrawlSpec
